import Mathlib

/-!
Verification development for the sketchpad stroke-document engine.

The definitions below are a shallow embedding of the TypeScript source:
 - the data model (`src/types.ts`),
 - the geometry and SVG codec (`src/utils/drawingUtils.ts`),
 - the hit-test (`findNearestStrokeId` in the sketch screen),
 - the document/history state machine (the `useSketchpad` hook),
 - the calligraphy/marker rendering widths (the canvas component),
 - the persistence loader (`useDrawingStorage.ts`).

JavaScript numbers are modelled by exact rationals (`ℚ`).  The two
JavaScript number-to-text builtins used by the codec are modelled by
`jsNumStr` (default `ToString`, exact on decimal-valued inputs, which is
what the codec produces for decimal literals) and `jsToFixed`
(`Number.prototype.toFixed`, round half away from zero as specified by
ECMAScript).  `Math.sqrt` appears in the source only inside comparisons
of distances against other distances or the radius; since square root is
strictly monotone on nonnegative reals, the embedding compares squared
distances instead, which keeps every definition executable.
-/

/-- Model of `Point` from `src/types.ts`: a pointer sample. -/
structure Point where
  x : ℚ
  y : ℚ
  pressure : ℚ
deriving DecidableEq

/-- Model of `BrushType` from `src/types.ts`: one enumeration for both tools and
stroke styles. -/
inductive BrushType where
  | pen
  | marker
  | calligraphy
  | eraser
  | select
deriving DecidableEq

/-- Model of `Stroke` from `src/types.ts`. -/
structure Stroke where
  id : String
  points : List Point
  color : String
  strokeWidth : ℚ
  brushType : BrushType
  pathData : String
deriving DecidableEq

/-- Model of `SelectionRect` from `src/types.ts`: unordered corners. -/
structure SelectionRect where
  x1 : ℚ
  y1 : ℚ
  x2 : ℚ
  y2 : ℚ
deriving DecidableEq

/-- Model of `BoundingBox` from `src/types.ts`. -/
structure BoundingBox where
  minX : ℚ
  minY : ℚ
  maxX : ℚ
  maxY : ℚ
deriving DecidableEq

/-- Character for a single decimal digit (`0 ≤ n ≤ 9`). -/
def digitChar (n : ℕ) : Char :=
  Char.ofNat (48 + n)

/-- Decimal digits of a natural number, most significant first; `fuel`
bounds the recursion and is always taken large enough. -/
def natDigitsAux : ℕ → ℕ → List Char
  | 0, _ => []
  | fuel + 1, n =>
    if n < 10 then [digitChar n]
    else natDigitsAux fuel (n / 10) ++ [digitChar (n % 10)]

/-- Decimal representation of a natural number. -/
def natStr (n : ℕ) : String :=
  String.mk (natDigitsAux (n + 1) n)

/-- Number of times `p` divides `n` (`fuel`-bounded, `fuel = n` suffices). -/
def factorCountAux : ℕ → ℕ → ℕ → ℕ
  | 0, _, _ => 0
  | fuel + 1, p, n =>
    if 2 ≤ p ∧ 0 < n ∧ n % p = 0 then 1 + factorCountAux fuel p (n / p) else 0

/-- Number of times `p` divides `n`. -/
def factorCount (p n : ℕ) : ℕ :=
  factorCountAux n p n

/-- Model of the default JavaScript number-to-string conversion used by
template literals (`${width}`, `${s.strokeWidth}`, path data…).  For a
rational whose reduced denominator is `2^a * 5^b` it prints the exact
shortest decimal expansion, which is what ECMAScript `ToString` prints
for every decimal-valued double produced by the sources' literals. -/
def jsNumStr (q : ℚ) : String :=
  let sign := if q < 0 then "-" else ""
  let n := q.num.natAbs
  let d := q.den
  if d = 1 then sign ++ natStr n
  else
    let k := max (factorCount 2 d) (factorCount 5 d)
    let scaled := n * 10 ^ k / d
    let ds := (natStr scaled).data
    let ds2 := List.replicate (k + 1 - ds.length) '0' ++ ds
    sign ++ String.mk (ds2.take (ds2.length - k)) ++ "." ++
      String.mk (ds2.drop (ds2.length - k))

/-- Pad a digit list on the left with zeros up to length `f`. -/
def padZeros (f : ℕ) (cs : List Char) : List Char :=
  List.replicate (f - cs.length) '0' ++ cs

/-- Model of ECMAScript `Number.prototype.toFixed`: round the magnitude
half away from zero to `f` fractional digits and always print exactly
`f` fractional digits. -/
def jsToFixed (f : ℕ) (q : ℚ) : String :=
  let sign := if q < 0 then "-" else ""
  let n : ℕ := (q.num.natAbs * 10 ^ f * 2 + q.den) / (2 * q.den)
  let ip := n / 10 ^ f
  let fp := n % 10 ^ f
  if f = 0 then sign ++ natStr ip
  else sign ++ natStr ip ++ "." ++ String.mk (padZeros f (natStr fp).data)

/-- Model of `getSvgPathFromPoints` from `drawingUtils.ts`: empty path for zero
points, a degenerate dot path for one point, otherwise a smoothed path
of quadratic curves through midpoints ending in a straight segment. -/
def getSvgPathFromPoints (points : List Point) : String :=
  match points with
  | [] => ""
  | [p] =>
    "M " ++ jsNumStr p.x ++ " " ++ jsNumStr p.y ++ " L " ++ jsNumStr p.x ++
      " " ++ jsNumStr (p.y + 1 / 10)
  | p0 :: rest =>
    "M " ++ jsNumStr p0.x ++ " " ++ jsNumStr p0.y ++
      String.join ((rest.zip rest.tail).map (fun pq =>
        " Q " ++ jsNumStr pq.1.x ++ " " ++ jsNumStr pq.1.y ++ ", " ++
          jsNumStr ((pq.1.x + pq.2.x) / 2) ++ " " ++
          jsNumStr ((pq.1.y + pq.2.y) / 2))) ++
      " L " ++ jsNumStr (rest.getLast?.getD p0).x ++ " " ++
      jsNumStr (rest.getLast?.getD p0).y

/-- Model of `getStrokeBoundingBox` from `drawingUtils.ts`.  The source seeds the
scan with `±Infinity`; for a nonempty point list that is equivalent to
seeding with the first point, which is how the embedding states it
(rationals have no infinities). -/
def getStrokeBoundingBox (s : Stroke) : BoundingBox :=
  match s.points with
  | [] => ⟨0, 0, 0, 0⟩
  | p :: ps =>
    ps.foldl
      (fun bb q => ⟨min bb.minX q.x, min bb.minY q.y, max bb.maxX q.x, max bb.maxY q.y⟩)
      ⟨p.x, p.y, p.x, p.y⟩

/-- One `<line>` or `<path>` element of the full export
(`generateSvgContent.renderStroke`). -/
def renderSvgStroke (s : Stroke) : String :=
  if s.brushType = BrushType.marker ∧ 1 < s.points.length then
    String.intercalate "\n    "
      ((s.points.dropLast.zip s.points.tail).map (fun pq =>
        "<line x1=\"" ++ jsToFixed 2 pq.1.x ++ "\" y1=\"" ++ jsToFixed 2 pq.1.y ++
          "\" x2=\"" ++ jsToFixed 2 pq.2.x ++ "\" y2=\"" ++ jsToFixed 2 pq.2.y ++
          "\" stroke=\"" ++ s.color ++ "\" stroke-width=\"" ++ jsNumStr s.strokeWidth ++
          "\" stroke-linecap=\"round\" opacity=\"0.5\" />"))
  else
    "<path d=\"" ++ s.pathData ++ "\" stroke=\"" ++ s.color ++
      "\" stroke-width=\"" ++ jsNumStr s.strokeWidth ++
      "\" fill=\"none\" stroke-linecap=\"round\" stroke-linejoin=\"round\"" ++
      (if s.brushType = BrushType.marker then " opacity=\"0.5\"" else "") ++ " />"

/-- Model of `generateSvgContent` from `drawingUtils.ts`: full SVG export. -/
def generateSvgContent (strokes : List Stroke) (width height : ℚ) : String :=
  "<?xml version=\"1.0\" encoding=\"utf-8\"?>\n<svg xmlns=\"http://www.w3.org/2000/svg\" viewBox=\"0 0 " ++
    jsNumStr width ++ " " ++ jsNumStr height ++ "\" width=\"" ++ jsNumStr width ++
    "\" height=\"" ++ jsNumStr height ++ "\">\n  <rect width=\"100%\" height=\"100%\" fill=\"#ffffff\" />\n  " ++
    String.intercalate "\n  " (strokes.map renderSvgStroke) ++ "\n</svg>"

/-- One element of the thumbnail export
(`generateThumbnailSvg.renderStroke`): 1-decimal coordinates. -/
def renderThumbStroke (s : Stroke) : String :=
  if s.brushType = BrushType.marker ∧ 1 < s.points.length then
    String.intercalate " "
      ((s.points.dropLast.zip s.points.tail).map (fun pq =>
        "<line x1=\"" ++ jsToFixed 1 pq.1.x ++ "\" y1=\"" ++ jsToFixed 1 pq.1.y ++
          "\" x2=\"" ++ jsToFixed 1 pq.2.x ++ "\" y2=\"" ++ jsToFixed 1 pq.2.y ++
          "\" stroke=\"" ++ s.color ++ "\" stroke-width=\"" ++ jsNumStr s.strokeWidth ++
          "\" stroke-linecap=\"round\" opacity=\"0.5\" />"))
  else
    "<path d=\"" ++ s.pathData ++ "\" stroke=\"" ++ s.color ++
      "\" stroke-width=\"" ++ jsNumStr s.strokeWidth ++
      "\" fill=\"none\" stroke-linecap=\"round\" stroke-linejoin=\"round\" " ++
      (if s.brushType = BrushType.marker then "opacity=\"0.5\"" else "") ++ " />"

/-- The union bounding box of the thumbnail's strokes.  The source folds
from `±Infinity` and afterwards tests `allBB.minX !== Infinity`; the
embedding folds through `Option` (`none` plays the role of the untouched
infinite accumulator). -/
def thumbUnionBB (strokes : List Stroke) : Option BoundingBox :=
  strokes.foldl
    (fun acc s =>
      let bb := getStrokeBoundingBox s
      match acc with
      | none => some bb
      | some a => some ⟨min a.minX bb.minX, min a.minY bb.minY,
          max a.maxX bb.maxX, max a.maxY bb.maxY⟩)
    none

/-- Model of `generateThumbnailSvg` from `drawingUtils.ts`: first 10 strokes only,
auto-zoomed padded viewBox, empty string on an empty document. -/
def generateThumbnailSvg (strokes : List Stroke) (width height : ℚ) : String :=
  if strokes = [] then ""
  else
    let topStrokes := strokes.take 10
    let viewBox :=
      match thumbUnionBB topStrokes with
      | none => "0 0 " ++ jsNumStr width ++ " " ++ jsNumStr height
      | some bb =>
        let vW := max 10 (bb.maxX - bb.minX + 20 * 2)
        let vH := max 10 (bb.maxY - bb.minY + 20 * 2)
        jsToFixed 1 (bb.minX - 20) ++ " " ++ jsToFixed 1 (bb.minY - 20) ++ " " ++
          jsToFixed 1 vW ++ " " ++ jsToFixed 1 vH
    "<svg xmlns=\"http://www.w3.org/2000/svg\" viewBox=\"" ++ viewBox ++
      "\" width=\"100%\" height=\"100%\"><rect width=\"100%\" height=\"100%\" fill=\"#ffffff\" />" ++
      String.join (topStrokes.map renderThumbStroke) ++ "</svg>"

/-- Squared euclidean distance from a point sample to the query point.
The source computes `Math.sqrt((pt.x-x)^2 + (pt.y-y)^2)` and only ever
compares it against the running best and the radius; the embedding
compares squares, which is equivalent by strict monotonicity of square
root on nonnegatives. -/
def distSq (x y : ℚ) (p : Point) : ℚ :=
  (p.x - x) * (p.x - x) + (p.y - y) * (p.y - y)

/-- Model of `findNearestStrokeId` from the sketch screen: linear scan of every
point of every stroke, keeping the strictly closest point seen so far,
starting from the radius itself (so a hit must be strictly within the
radius). -/
def findNearestStrokeId (x y : ℚ) (strokes : List Stroke) (radius : ℚ) : Option String :=
  (strokes.foldl
    (fun acc s =>
      s.points.foldl
        (fun best p => if distSq x y p < best.2 then (some s.id, distSq x y p) else best)
        acc)
    ((none : Option String), radius * radius)).1

/-- Model of `arr.slice(-n)` on a JavaScript array: the last `n` elements (the
whole array when it is shorter). -/
def takeLast (n : ℕ) (l : List α) : List α :=
  l.drop (l.length - n)

/-- The state owned by the `useSketchpad` hook. -/
structure SketchpadState where
  strokes : List Stroke
  undoStack : List (List Stroke)
  redoStack : List (List Stroke)
  currentStroke : Option Stroke
  currentTool : BrushType
  currentColor : String
  currentWidth : ℚ
  selection : List String
  focusedId : Option String
  isDirty : Bool
deriving DecidableEq

/-- The hook's initial state (the `useState` initialisers). -/
def initialState : SketchpadState where
  strokes := []
  undoStack := []
  redoStack := []
  currentStroke := none
  currentTool := BrushType.pen
  currentColor := "#000000"
  currentWidth := 5
  selection := []
  focusedId := none
  isDirty := false

/-- Model of `saveStateToUndo` from `useSketchpad`: push the given snapshot, cap
the undo stack at its last 50 entries, clear the redo stack, mark
dirty. -/
def saveStateToUndo (currentStrokes : List Stroke) (st : SketchpadState) : SketchpadState :=
  { st with
    undoStack := takeLast 50 (st.undoStack ++ [currentStrokes])
    redoStack := []
    isDirty := true }

/-- Model of `startDrawing` from `useSketchpad`.  `nanoid()` is modelled by the
caller-supplied fresh `id`. -/
def startDrawing (id : String) (p : Point) (st : SketchpadState) : SketchpadState :=
  if st.currentTool = BrushType.eraser ∨ st.currentTool = BrushType.select then st
  else
    { st with
      currentStroke := some
        { id := id
          points := [p]
          color := st.currentColor
          strokeWidth :=
            if st.currentTool = BrushType.calligraphy then st.currentWidth * (3 / 2)
            else st.currentWidth
          brushType := st.currentTool
          pathData := getSvgPathFromPoints [p] } }

/-- Model of `continueDrawing` from `useSketchpad`: append the point and
recompute the cached path. -/
def continueDrawing (p : Point) (st : SketchpadState) : SketchpadState :=
  match st.currentStroke with
  | none => st
  | some cs =>
    { st with
      currentStroke := some
        { cs with
          points := cs.points ++ [p]
          pathData := getSvgPathFromPoints (cs.points ++ [p]) } }

/-- Model of `endDrawing` from `useSketchpad`: when an in-progress stroke with at
least one point exists, snapshot the pre-commit strokes and append it;
the in-progress stroke is cleared either way. -/
def endDrawing (st : SketchpadState) : SketchpadState :=
  match st.currentStroke with
  | none => { st with currentStroke := none }
  | some cs =>
    if cs.points = [] then { st with currentStroke := none }
    else
      { saveStateToUndo st.strokes st with
        strokes := st.strokes ++ [cs]
        currentStroke := none }

/-- Model of `undo` from `useSketchpad`: no-op on an empty undo stack; otherwise
pop the most recent snapshot, push the current strokes onto the redo
stack, restore, and clear selection and focus. -/
def undo (st : SketchpadState) : SketchpadState :=
  match st.undoStack.getLast? with
  | none => st
  | some previousState =>
    { st with
      undoStack := st.undoStack.dropLast
      redoStack := st.redoStack ++ [st.strokes]
      strokes := previousState
      selection := []
      focusedId := none
      isDirty := true }

/-- Model of `redo` from `useSketchpad`: symmetric to `undo`; note the push onto
the undo stack is NOT capped on this path. -/
def redo (st : SketchpadState) : SketchpadState :=
  match st.redoStack.getLast? with
  | none => st
  | some nextState =>
    { st with
      redoStack := st.redoStack.dropLast
      undoStack := st.undoStack ++ [st.strokes]
      strokes := nextState
      selection := []
      focusedId := none
      isDirty := true }

/-- Model of `clear` from `useSketchpad`: no-op on an empty document; otherwise
snapshot, empty the strokes, clear selection and focus. -/
def clear (st : SketchpadState) : SketchpadState :=
  if st.strokes = [] then st
  else
    { saveStateToUndo st.strokes st with
      strokes := []
      selection := []
      focusedId := none }

/-- Model of `removeStroke` from `useSketchpad`: unconditionally snapshot, then
remove the stroke and prune it from selection and focus. -/
def removeStroke (id : String) (st : SketchpadState) : SketchpadState :=
  { saveStateToUndo st.strokes st with
    strokes := st.strokes.filter (fun s => decide (s.id ≠ id))
    selection := st.selection.filter (fun sId => decide (sId ≠ id))
    focusedId := if st.focusedId = some id then none else st.focusedId }

/-- Model of `toggleSelection` from `useSketchpad`: toggle membership of `id` in
the selection; clear the focus when the toggled id is the focused one. -/
def toggleSelection (id : String) (st : SketchpadState) : SketchpadState :=
  { st with
    selection :=
      if id ∈ st.selection then st.selection.filter (fun sId => decide (sId ≠ id))
      else st.selection ++ [id]
    focusedId := if st.focusedId = some id then none else st.focusedId }

/-- Model of `clearSelection` from `useSketchpad`. -/
def clearSelection (st : SketchpadState) : SketchpadState :=
  { st with selection := [], focusedId := none }

/-- Model of `selectAll` from `useSketchpad`. -/
def selectAll (st : SketchpadState) : SketchpadState :=
  { st with selection := st.strokes.map (fun s => s.id) }

/-- Model of `deleteSelected` from `useSketchpad`: no-op on an empty selection;
otherwise snapshot and remove every selected stroke. -/
def deleteSelected (st : SketchpadState) : SketchpadState :=
  if st.selection = [] then st
  else
    { saveStateToUndo st.strokes st with
      strokes := st.strokes.filter (fun s => decide (s.id ∉ st.selection))
      selection := []
      focusedId := none }

/-- Model of `selectByRect` from `useSketchpad`: normalise the rectangle, replace
the selection with the ids of every stroke whose bounding box meets it
(inclusive comparisons), clear the focus. -/
def selectByRect (rect : SelectionRect) (st : SketchpadState) : SketchpadState :=
  let minX := min rect.x1 rect.x2
  let maxX := max rect.x1 rect.x2
  let minY := min rect.y1 rect.y2
  let maxY := max rect.y1 rect.y2
  { st with
    selection :=
      (st.strokes.filter (fun s =>
        let bb := getStrokeBoundingBox s
        decide (minX ≤ bb.maxX ∧ bb.minX ≤ maxX ∧ minY ≤ bb.maxY ∧ bb.minY ≤ maxY))).map
        (fun s => s.id)
    focusedId := none }

/-- Model of `toggleFocused` from `useSketchpad`. -/
def toggleFocused (id : String) (st : SketchpadState) : SketchpadState :=
  { st with focusedId := if st.focusedId = some id then none else some id }

/-- Model of `loadStrokes` from `useSketchpad`: wholesale replacement of the
document, resetting history, selection, focus, the in-progress stroke
and the dirty flag. -/
def loadStrokes (newStrokes : List Stroke) (st : SketchpadState) : SketchpadState :=
  { st with
    strokes := newStrokes
    undoStack := []
    redoStack := []
    selection := []
    focusedId := none
    currentStroke := none
    isDirty := false }

/-- Model of `canUndo` as exposed by the hook (`undoStack.length > 0`). -/
def canUndo (st : SketchpadState) : Bool :=
  decide (0 < st.undoStack.length)

/-- Model of `canRedo` as exposed by the hook (`redoStack.length > 0`). -/
def canRedo (st : SketchpadState) : Bool :=
  decide (0 < st.redoStack.length)

/-- The public mutating operations of the hook (the raw `setFocusedId`
setter and the dirty-flag helpers are not part of the claims'
operation set). -/
inductive Op where
  | startDraw (id : String) (p : Point)
  | continueDraw (p : Point)
  | endDraw
  | undoOp
  | redoOp
  | clearOp
  | removeOp (id : String)
  | toggleSel (id : String)
  | clearSel
  | selectAllOp
  | deleteSel
  | selectRect (r : SelectionRect)
  | toggleFoc (id : String)
  | loadOp (strokes : List Stroke)
  | setTool (t : BrushType)
  | setColor (c : String)
  | setWidth (w : ℚ)

/-- Interpretation of one public operation on the hook state. -/
def applyOp (op : Op) (st : SketchpadState) : SketchpadState :=
  match op with
  | Op.startDraw id p => startDrawing id p st
  | Op.continueDraw p => continueDrawing p st
  | Op.endDraw => endDrawing st
  | Op.undoOp => undo st
  | Op.redoOp => redo st
  | Op.clearOp => clear st
  | Op.removeOp id => removeStroke id st
  | Op.toggleSel id => toggleSelection id st
  | Op.clearSel => clearSelection st
  | Op.selectAllOp => selectAll st
  | Op.deleteSel => deleteSelected st
  | Op.selectRect r => selectByRect r st
  | Op.toggleFoc id => toggleFocused id st
  | Op.loadOp strokes => loadStrokes strokes st
  | Op.setTool t => { st with currentTool := t }
  | Op.setColor c => { st with currentColor := c }
  | Op.setWidth w => { st with currentWidth := w }

/-- Run a sequence of public operations from a state. -/
def runOps (ops : List Op) (st : SketchpadState) : SketchpadState :=
  ops.foldl (fun s op => applyOp op s) st

/-- The reference invariant of the data model: every selected id and the
focused id (when set) belong to a stroke of the document. -/
def ValidRefs (st : SketchpadState) : Prop :=
  (∀ i ∈ st.selection, ∃ s ∈ st.strokes, s.id = i) ∧
    (∀ i, st.focusedId = some i → ∃ s ∈ st.strokes, s.id = i)

/-- One drawable element emitted by the canvas renderer
(`SkiaCanvas.tsx`); geometry and paint attributes only. -/
inductive RenderElem where
  | pathElem (pathData : String) (color : String) (width : ℚ) (opacity : ℚ)
  | lineElem (x1 y1 x2 y2 : ℚ) (color : String) (width : ℚ)
  | haloElem (pathData : String) (color : String) (width : ℚ)
deriving DecidableEq

/-- Model of `MarkerStroke` from `SkiaCanvas.tsx`: optional selection halo, then
the whole path at 0.5 opacity; pressure is never read. -/
def renderMarkerStroke (s : Stroke) (isSelected isFocused : Bool) : List RenderElem :=
  let highlightColor := if isFocused then "#00CFFF" else "#FF8C00"
  (if isSelected ∧ 1 < s.points.length then
    [RenderElem.haloElem s.pathData highlightColor (s.strokeWidth + 6)]
   else []) ++
    [RenderElem.pathElem s.pathData s.color s.strokeWidth (1 / 2)]

/-- Model of `RegularStroke` from `SkiaCanvas.tsx`: optional selection halo; a
calligraphy stroke with at least two points renders one line per
adjacent point pair whose width is
`max(1, strokeWidth * averagePressure * 1.5)`; otherwise a single path
of the stroke's width. -/
def renderRegularStroke (s : Stroke) (isSelected isFocused : Bool) : List RenderElem :=
  let highlightColor := if isFocused then "#00CFFF" else "#FF8C00"
  (if isSelected then
    [RenderElem.haloElem s.pathData highlightColor (s.strokeWidth + 4)]
   else []) ++
    (if s.brushType = BrushType.calligraphy ∧ 1 < s.points.length then
      (s.points.dropLast.zip s.points.tail).map (fun pq =>
        RenderElem.lineElem pq.1.x pq.1.y pq.2.x pq.2.y s.color
          (max 1 (s.strokeWidth * ((pq.1.pressure + pq.2.pressure) / 2) * (3 / 2))))
     else [RenderElem.pathElem s.pathData s.color s.strokeWidth 1])

/-- Model of `SkiaCanvas.renderStroke`: markers go to `MarkerStroke`, everything
else to `RegularStroke`. -/
def renderStroke (s : Stroke) (isSelected isFocused : Bool) : List RenderElem :=
  if s.brushType = BrushType.marker then renderMarkerStroke s isSelected isFocused
  else renderRegularStroke s isSelected isFocused

/-- Model of `Drawing` from `src/types.ts` (persisted record).  The two
timestamps stay as their stored ISO strings. -/
structure Drawing where
  id : String
  name : String
  strokes : List Stroke
  canvasWidth : ℚ
  canvasHeight : ℚ
  thumbnailSvg : String
  createdAt : String
  updatedAt : String
deriving DecidableEq

/-- The storage key of the drawings index (`DRAWINGS_INDEX_KEY`). -/
def drawingsIndexKey : String := "drawings_index"

/-- The storage key of one drawing record (`DRAWING_PREFIX + id`). -/
def drawingRecordKey (id : String) : String := "drawing_" ++ id

/-- Descending insertion by update time: the sort applied by
`loadDrawings` (`new Date(b.updatedAt) - new Date(a.updatedAt)`), with
`timeOf` modelling `Date.parse` on the stored ISO strings. -/
def insertByUpdatedDesc (timeOf : String → ℤ) (d : Drawing) : List Drawing → List Drawing
  | [] => [d]
  | x :: xs =>
    if timeOf x.updatedAt ≤ timeOf d.updatedAt then d :: x :: xs
    else x :: insertByUpdatedDesc timeOf d xs

/-- The descending-by-`updatedAt` sort of `loadDrawings`. -/
def sortByUpdatedDesc (timeOf : String → ℤ) (l : List Drawing) : List Drawing :=
  l.foldr (insertByUpdatedDesc timeOf) []

/-- The per-id loop of `loadDrawings`: a missing record is skipped, a
record that fails to decode raises (aborting the whole load, because the
`try` wraps the entire loop), a decoded record is kept with its strokes
stripped.  `JSON.parse` is modelled by the `parseDrawing` parameter
(`none` = decode failure). -/
def loadLoop (store : String → Option String) (parseDrawing : String → Option Drawing) :
    List String → Except String (List Drawing)
  | [] => Except.ok []
  | id :: rest =>
    match store (drawingRecordKey id) with
    | none => loadLoop store parseDrawing rest
    | some drawingJson =>
      match parseDrawing drawingJson with
      | none => Except.error "SyntaxError"
      | some drawing =>
        (loadLoop store parseDrawing rest).map
          (fun tail => { drawing with strokes := [] } :: tail)

/-- Model of `loadDrawings` from `useDrawingStorage.ts`: read the index, load
each listed record, sort descending by update time.  `Except.error`
is the branch where the surrounding `try`/`catch` reports the failure;
no partial list of drawings escapes it. -/
def loadDrawings (store : String → Option String)
    (parseIndex : String → Option (List String))
    (parseDrawing : String → Option Drawing)
    (timeOf : String → ℤ) : Except String (List Drawing) :=
  match store drawingsIndexKey with
  | none => Except.ok []
  | some indexJson =>
    match parseIndex indexJson with
    | none => Except.error "SyntaxError"
    | some ids =>
      (loadLoop store parseDrawing ids).map (sortByUpdatedDesc timeOf)

/-- A sequence of commit-stroke operations: each installs the given
in-progress stroke and commits it through `endDrawing`. -/
def commitSeq (css : List Stroke) (st : SketchpadState) : SketchpadState :=
  css.foldl (fun s cs => endDrawing { s with currentStroke := some cs }) st

/-- Runs `n` successive `undo` operations. -/
def undoN : ℕ → SketchpadState → SketchpadState
  | 0, st => st
  | n + 1, st => undoN n (undo st)

/-- The snapshots that a commit sequence records: the pre-commit strokes
before each successive commit, oldest first. -/
def snapList : List Stroke → List Stroke → List (List Stroke)
  | [], _ => []
  | c :: cs, base => base :: snapList cs (base ++ [c])

/-- The inner loop of `findNearestStrokeId`: scan one stroke's points,
keeping the strictly closest point seen so far. -/
def nearestScan (x y : ℚ) (sid : String) (pts : List Point) (acc : Option String × ℚ) :
    Option String × ℚ :=
  pts.foldl
    (fun best p => if distSq x y p < best.2 then (some sid, distSq x y p) else best)
    acc

/-- The outer loop of `findNearestStrokeId`: scan every stroke. -/
def nearestFold (x y : ℚ) (strokes : List Stroke) (acc : Option String × ℚ) :
    Option String × ℚ :=
  strokes.foldl (fun a s => nearestScan x y s.id s.points a) acc

/-- Number of characters after the last `.` of a string (its count of
fractional digits when it denotes a decimal numeral). -/
def fracDigits (s : String) : ℕ :=
  (s.data.reverse.takeWhile (fun c => decide (c ≠ '.'))).length

/-- Call-validity of a public operation: the two toggle operations are
fed an id of a stroke present in the document (which is how the UI
invokes them — the ids come from the hit-test or from the selection
panel's list of selected strokes); every other operation is
unconstrained. -/
def opOk (st : SketchpadState) : Op → Prop
  | Op.toggleSel id => ∃ s ∈ st.strokes, s.id = id
  | Op.toggleFoc id => ∃ s ∈ st.strokes, s.id = id
  | _ => True

/-- States reachable from the hook's initial state through validly
invoked public operations. -/
inductive Reachable : SketchpadState → Prop where
  | init : Reachable initialState
  | step (op : Op) (st : SketchpadState) :
      Reachable st → opOk st op → Reachable (applyOp op st)

/-- A sample pointer sample. -/
def demoPoint : Point := ⟨0, 0, 1 / 2⟩

/-- A sample committed pen stroke (as `startDrawing` would create it). -/
def demoStroke : Stroke :=
  ⟨"c", [demoPoint], "#000000", 5, BrushType.pen, getSvgPathFromPoints [demoPoint]⟩

/-- A calligraphy stroke with stored width 10 and two points of pressure
0.2 and 0.4 (the spec's worked scenario). -/
def calligDemo : Stroke :=
  ⟨"c8", [⟨0, 0, 1 / 5⟩, ⟨10, 10, 2 / 5⟩], "#000000", 10, BrushType.calligraphy,
    getSvgPathFromPoints [⟨0, 0, 1 / 5⟩, ⟨10, 10, 2 / 5⟩]⟩

/-- A document state with one stroke, a nonempty selection, an
in-progress stroke and a nonempty redo stack. -/
def c2State : SketchpadState :=
  { initialState with
    strokes := [demoStroke]
    selection := ["c"]
    currentStroke := some demoStroke
    redoStack := [[demoStroke]] }

/-- A pen stroke whose stored width 2.5 is not an integer number of
hundredths-free decimal (prints as `2.5`). -/
def c6Stroke : Stroke :=
  ⟨"w", [demoPoint], "#000000", 5 / 2, BrushType.pen, getSvgPathFromPoints [demoPoint]⟩

/-- Hit-test demo stroke at the origin. -/
def c7A : Stroke := ⟨"a", [⟨0, 0, 1 / 2⟩], "#000000", 5, BrushType.pen, ""⟩

/-- Hit-test demo stroke farther from the query point. -/
def c7B : Stroke := ⟨"b", [⟨5, 0, 1 / 2⟩], "#000000", 5, BrushType.pen, ""⟩

/-- A store with an index listing one drawing whose record is stored but
malformed. -/
def c9Store : String → Option String := fun k =>
  if k = "drawings_index" then some "[\"a\"]"
  else if k = "drawing_a" then some "bad" else none

/-- Index decoder for the demo store. -/
def c9ParseIndex : String → Option (List String) := fun s =>
  if s = "[\"a\"]" then some ["a"] else none

/-- Record decoder that fails on every input (`JSON.parse` throwing on a
malformed record). -/
def c9ParseDrawing : String → Option Drawing := fun _ => none

attribute [local semireducible] Rat.mul Rat.add Rat.sub Rat.inv

theorem takeLast_eq_reverse (n : ℕ) (l : List α) :
    takeLast n l = (l.reverse.take n).reverse := by
  rw [List.take_reverse, List.reverse_reverse]; rfl

theorem takeLast_length (n : ℕ) (l : List α) :
    (takeLast n l).length = min n l.length := by
  simp [takeLast, List.length_drop]; omega

theorem takeLast_suffix (n : ℕ) (l : List α) : takeLast n l <:+ l :=
  List.drop_suffix _ _

theorem takeLast_append_takeLast (a : ℕ) (L M : List α) :
    takeLast a (takeLast a L ++ M) = takeLast a (L ++ M) := by
  rw [takeLast_eq_reverse a L, takeLast_eq_reverse, takeLast_eq_reverse]
  rw [List.reverse_append, List.reverse_reverse, List.reverse_append]
  rw [List.take_append_eq_append_take, List.take_append_eq_append_take, List.take_take]
  rw [min_eq_left (Nat.sub_le a M.reverse.length)]

theorem takeLast_append_of_le (a : ℕ) (u M : List α) (h : M.length ≤ a) :
    takeLast a (u ++ M) = takeLast (a - M.length) u ++ M := by
  rw [takeLast_eq_reverse, takeLast_eq_reverse, List.reverse_append,
    List.take_append_eq_append_take,
    List.take_of_length_le (by simpa using h), List.length_reverse,
    List.reverse_append, List.reverse_reverse]

/-- Claim C3: immediately after any `record` (`saveStateToUndo`) call the
`past` stack holds at most 50 entries — exactly `min (previous + 1) 50` —
and what is retained is a suffix of the pushed stack, so when the cap is
exceeded it is the oldest entries that are evicted.  This holds for every
prior contents of the stack. -/
theorem C3_record_caps_undoStack (st : SketchpadState) (cs : List Stroke) :
    (saveStateToUndo cs st).undoStack.length ≤ 50 ∧
    (saveStateToUndo cs st).undoStack.length = min (st.undoStack.length + 1) 50 ∧
    (saveStateToUndo cs st).undoStack <:+ st.undoStack ++ [cs] := by
  refine ⟨?_, ?_, ?_⟩
  · simp [saveStateToUndo, takeLast_length]
  · simp [saveStateToUndo, takeLast_length]; omega
  · exact takeLast_suffix _ _

/-- Claim C10: `loadStrokes` replaces the committed strokes wholesale and
resets everything else: both history stacks become empty (so neither undo
nor redo is available), the selection is emptied, the focus is cleared,
and the in-progress stroke is discarded. -/
theorem C10_loadStrokes_resets (st : SketchpadState) (ns : List Stroke) :
    (loadStrokes ns st).strokes = ns ∧
    (loadStrokes ns st).undoStack = [] ∧
    (loadStrokes ns st).redoStack = [] ∧
    canUndo (loadStrokes ns st) = false ∧
    canRedo (loadStrokes ns st) = false ∧
    (loadStrokes ns st).selection = [] ∧
    (loadStrokes ns st).focusedId = none ∧
    (loadStrokes ns st).currentStroke = none := by
  simp [loadStrokes, canUndo, canRedo]

/-- Claim C2, corrected: the redo stack is cleared by `removeStroke`
unconditionally, and by commit-stroke / `clear` / `deleteSelected`
whenever their guard passes (an in-progress stroke with a point exists, the
document is nonempty, the selection is nonempty, respectively); on the
guarded no-op paths the redo stack is left untouched. -/
theorem C2_mutators_clear_future (st : SketchpadState) :
    (∀ id, (removeStroke id st).redoStack = []) ∧
    (∀ cs : Stroke, st.currentStroke = some cs → cs.points ≠ [] →
      (endDrawing st).redoStack = []) ∧
    (st.strokes ≠ [] → (clear st).redoStack = []) ∧
    (st.selection ≠ [] → (deleteSelected st).redoStack = []) := by
  refine ⟨fun id => rfl, ?_, ?_, ?_⟩
  · intro cs h hne
    simp [endDrawing, h, hne, saveStateToUndo]
  · intro h
    simp [clear, h, saveStateToUndo]
  · intro h
    simp [deleteSelected, h, saveStateToUndo]

/-- Witness for C2: all four clearing facts at a concrete state with a
nonempty redo stack, one stroke, a nonempty selection and an in-progress
stroke. -/
theorem C2_mutators_clear_future_witness :
    (removeStroke "c" c2State).redoStack = [] ∧
    (endDrawing c2State).redoStack = [] ∧
    (clear c2State).redoStack = [] ∧
    (deleteSelected c2State).redoStack = [] := by
  obtain ⟨h1, h2, h3, h4⟩ := C2_mutators_clear_future c2State
  exact ⟨h1 "c", h2 demoStroke rfl (by decide), h3 (by decide), h4 (by decide)⟩

/-- Counterexample to C2 as stated: after committing a stroke and undoing
it (a reachable state with a nonempty `future`, an empty document and an
empty selection), calling `clear`, `deleteSelected`, or commit-stroke
(`endDrawing`, with no stroke in progress) hits the guard path and leaves
`future` untouched and nonempty. -/
theorem C2_counterexample :
    (clear (runOps [Op.startDraw "c" demoPoint, Op.endDraw, Op.undoOp] initialState)).redoStack ≠ [] ∧
    (deleteSelected (runOps [Op.startDraw "c" demoPoint, Op.endDraw, Op.undoOp] initialState)).redoStack ≠ [] ∧
    (endDrawing (runOps [Op.startDraw "c" demoPoint, Op.endDraw, Op.undoOp] initialState)).redoStack ≠ [] := by
  decide

theorem renderStroke_calligraphy (s : Stroke) (foc : Bool)
    (h1 : s.brushType = BrushType.calligraphy) (h2 : 1 < s.points.length) :
    renderStroke s false foc =
      (s.points.dropLast.zip s.points.tail).map (fun pq =>
        RenderElem.lineElem pq.1.x pq.1.y pq.2.x pq.2.y s.color
          (max 1 (s.strokeWidth * ((pq.1.pressure + pq.2.pressure) / 2) * (3 / 2)))) := by
  simp [renderStroke, renderRegularStroke, h1, h2]

/-- Claim C8: a calligraphy stroke with at least two points renders one
segment per adjacent point pair with effective width
`max(1, strokeWidth * averagePressure * 1.5)`; the spec's scenario (stored
width 10, pressures 0.2 and 0.4) renders its one segment at width 4.5; and
pen/marker rendering is invariant under arbitrary changes of the stored
pressures. -/
theorem C8_calligraphy_segment_widths :
    (∀ (s : Stroke) (foc : Bool), s.brushType = BrushType.calligraphy →
      1 < s.points.length →
      renderStroke s false foc =
        (s.points.dropLast.zip s.points.tail).map (fun pq =>
          RenderElem.lineElem pq.1.x pq.1.y pq.2.x pq.2.y s.color
            (max 1 (s.strokeWidth * ((pq.1.pressure + pq.2.pressure) / 2) * (3 / 2))))) ∧
    renderStroke calligDemo false false =
      [RenderElem.lineElem 0 0 10 10 "#000000" (4.5 : ℚ)] ∧
    (∀ (s : Stroke) (f : Point → ℚ) (sel foc : Bool),
      s.brushType ≠ BrushType.calligraphy →
      renderStroke { s with points := s.points.map (fun p => { p with pressure := f p }) } sel foc =
        renderStroke s sel foc) := by
  refine ⟨renderStroke_calligraphy, ?_, ?_⟩
  · rw [renderStroke_calligraphy calligDemo false rfl (by decide)]
    norm_num [calligDemo]
  · intro s f sel foc h
    cases hb : s.brushType <;>
      simp_all [renderStroke, renderMarkerStroke, renderRegularStroke]

/-- Witness for C8: the general-width conjunct applied at the concrete
calligraphy stroke, and pressure-invariance applied at a concrete pen
stroke with all pressures forced to zero. -/
theorem C8_calligraphy_segment_widths_witness :
    renderStroke calligDemo false false =
      (calligDemo.points.dropLast.zip calligDemo.points.tail).map (fun pq =>
        RenderElem.lineElem pq.1.x pq.1.y pq.2.x pq.2.y calligDemo.color
          (max 1 (calligDemo.strokeWidth * ((pq.1.pressure + pq.2.pressure) / 2) * (3 / 2)))) ∧
    renderStroke { demoStroke with
        points := demoStroke.points.map (fun p => { p with pressure := 0 }) } false false =
      renderStroke demoStroke false false :=
  ⟨C8_calligraphy_segment_widths.1 calligDemo false rfl (by decide),
    C8_calligraphy_segment_widths.2.2 demoStroke (fun _ => 0) false false (by decide)⟩

theorem loadLoop_error_of_bad (store : String → Option String)
    (parseDrawing : String → Option Drawing) (badId badJson : String)
    (hRec : store (drawingRecordKey badId) = some badJson)
    (hBad : parseDrawing badJson = none) :
    ∀ ids : List String, badId ∈ ids →
      ∃ e, loadLoop store parseDrawing ids = Except.error e := by
  intro ids hmem
  induction ids with
  | nil => simp at hmem
  | cons a rest ih =>
    rcases List.mem_cons.mp hmem with h | h
    · subst h
      exact ⟨"SyntaxError", by simp [loadLoop, hRec, hBad]⟩
    · obtain ⟨e, he⟩ := ih h
      cases hsa : store (drawingRecordKey a) with
      | none => exact ⟨e, by simp [loadLoop, hsa, he]⟩
      | some sj =>
        cases hpa : parseDrawing sj with
        | none => exact ⟨"SyntaxError", by simp [loadLoop, hsa, hpa]⟩
        | some d => exact ⟨e, by simp [loadLoop, hsa, hpa, he, Except.map]⟩

/-- Claim C9: if the index lists an id whose stored record is present but
fails to decode, `loadDrawings` reports an error for the whole load — no
list of drawings is produced, the corrupt record is not skipped. -/
theorem C9_decode_failure_aborts_load (store : String → Option String)
    (parseIndex : String → Option (List String))
    (parseDrawing : String → Option Drawing) (timeOf : String → ℤ)
    (indexJson : String) (ids : List String) (badId badJson : String)
    (hIdx : store drawingsIndexKey = some indexJson)
    (hParse : parseIndex indexJson = some ids)
    (hMem : badId ∈ ids)
    (hRec : store (drawingRecordKey badId) = some badJson)
    (hBad : parseDrawing badJson = none) :
    ∃ e, loadDrawings store parseIndex parseDrawing timeOf = Except.error e := by
  obtain ⟨e, he⟩ :=
    loadLoop_error_of_bad store parseDrawing badId badJson hRec hBad ids hMem
  exact ⟨e, by simp [loadDrawings, hIdx, hParse, he, Except.map]⟩

/-- Witness for C9: a concrete store whose index lists one drawing whose
stored record fails to decode; the whole load errors. -/
theorem C9_decode_failure_aborts_load_witness :
    ∃ e, loadDrawings c9Store c9ParseIndex c9ParseDrawing (fun _ => 0) = Except.error e :=
  C9_decode_failure_aborts_load c9Store c9ParseIndex c9ParseDrawing (fun _ => 0)
    "[\"a\"]" ["a"] "a" "bad" (by decide) (by decide) (by decide) (by decide) rfl

theorem validRefs_step (op : Op) (st : SketchpadState)
    (hok : opOk st op) (h : ValidRefs st) : ValidRefs (applyOp op st) := by
  obtain ⟨hsel, hfoc⟩ := h
  cases op with
  | startDraw id p =>
    by_cases hc : st.currentTool = BrushType.eraser ∨ st.currentTool = BrushType.select
    · simp only [applyOp, startDrawing, if_pos hc]
      exact ⟨hsel, hfoc⟩
    · simp only [applyOp, startDrawing, if_neg hc]
      exact ⟨hsel, hfoc⟩
  | continueDraw p =>
    rcases hcs : st.currentStroke with _ | cs <;>
      simp only [applyOp, continueDrawing, hcs] <;>
      exact ⟨hsel, hfoc⟩
  | endDraw =>
    rcases hcs : st.currentStroke with _ | cs
    · simp only [applyOp, endDrawing, hcs]
      exact ⟨hsel, hfoc⟩
    · simp only [applyOp, endDrawing, hcs]
      by_cases hp : cs.points = []
      · simp only [if_pos hp]
        exact ⟨hsel, hfoc⟩
      · simp only [if_neg hp]
        refine ⟨?_, ?_⟩
        · intro i hi
          obtain ⟨s, hs, hid⟩ := hsel i hi
          exact ⟨s, List.mem_append_left _ hs, hid⟩
        · intro i hi
          obtain ⟨s, hs, hid⟩ := hfoc i hi
          exact ⟨s, List.mem_append_left _ hs, hid⟩
  | undoOp =>
    rcases hu : st.undoStack.getLast? with _ | prevState
    · simp only [applyOp, undo, hu]
      exact ⟨hsel, hfoc⟩
    · simp only [applyOp, undo, hu]
      exact ⟨fun i hi => absurd hi (List.not_mem_nil i),
        fun i hi => Option.noConfusion hi⟩
  | redoOp =>
    rcases hu : st.redoStack.getLast? with _ | nextState
    · simp only [applyOp, redo, hu]
      exact ⟨hsel, hfoc⟩
    · simp only [applyOp, redo, hu]
      exact ⟨fun i hi => absurd hi (List.not_mem_nil i),
        fun i hi => Option.noConfusion hi⟩
  | clearOp =>
    by_cases hc : st.strokes = []
    · simp only [applyOp, clear, if_pos hc]
      exact ⟨hsel, hfoc⟩
    · simp only [applyOp, clear, if_neg hc]
      exact ⟨fun i hi => absurd hi (List.not_mem_nil i),
        fun i hi => Option.noConfusion hi⟩
  | removeOp id =>
    refine ⟨?_, ?_⟩
    · intro i hi
      have hi' : i ∈ st.selection.filter (fun sId => decide (sId ≠ id)) := hi
      rw [List.mem_filter] at hi'
      obtain ⟨s, hs, hid⟩ := hsel i hi'.1
      have h2 : i ≠ id := by
        have := hi'.2
        rwa [decide_eq_true_eq] at this
      refine ⟨s, ?_, hid⟩
      show s ∈ st.strokes.filter (fun s => decide (s.id ≠ id))
      rw [List.mem_filter]
      exact ⟨hs, by rw [decide_eq_true_eq, hid]; exact h2⟩
    · intro i hi
      have hi' : (if st.focusedId = some id then none else st.focusedId) = some i := hi
      by_cases hfe : st.focusedId = some id
      · rw [if_pos hfe] at hi'
        exact Option.noConfusion hi'
      · rw [if_neg hfe] at hi'
        obtain ⟨s, hs, hid⟩ := hfoc i hi'
        refine ⟨s, ?_, hid⟩
        show s ∈ st.strokes.filter (fun s => decide (s.id ≠ id))
        rw [List.mem_filter]
        refine ⟨hs, ?_⟩
        rw [decide_eq_true_eq]
        intro hcon
        apply hfe
        rw [hid] at hcon
        rw [hi', hcon]
  | toggleSel id =>
    obtain ⟨sW, hsW, hidW⟩ := hok
    refine ⟨?_, ?_⟩
    · intro i hi
      have hi' : i ∈ (if id ∈ st.selection then
          st.selection.filter (fun sId => decide (sId ≠ id))
        else st.selection ++ [id]) := hi
      by_cases hmem : id ∈ st.selection
      · rw [if_pos hmem, List.mem_filter] at hi'
        exact hsel i hi'.1
      · rw [if_neg hmem, List.mem_append] at hi'
        rcases hi' with h1 | h1
        · exact hsel i h1
        · rw [List.mem_singleton] at h1
          subst h1
          exact ⟨sW, hsW, hidW⟩
    · intro i hi
      have hi' : (if st.focusedId = some id then none else st.focusedId) = some i := hi
      by_cases hfe : st.focusedId = some id
      · rw [if_pos hfe] at hi'
        exact Option.noConfusion hi'
      · rw [if_neg hfe] at hi'
        exact hfoc i hi'
  | clearSel =>
    exact ⟨fun i hi => absurd hi (List.not_mem_nil i),
      fun i hi => Option.noConfusion hi⟩
  | selectAllOp =>
    refine ⟨?_, hfoc⟩
    intro i hi
    rcases List.mem_map.mp hi with ⟨s, hs, hid⟩
    exact ⟨s, hs, hid⟩
  | deleteSel =>
    by_cases hc : st.selection = []
    · simp only [applyOp, deleteSelected, if_pos hc]
      exact ⟨hsel, hfoc⟩
    · simp only [applyOp, deleteSelected, if_neg hc]
      exact ⟨fun i hi => absurd hi (List.not_mem_nil i),
        fun i hi => Option.noConfusion hi⟩
  | selectRect r =>
    refine ⟨?_, fun i hi => Option.noConfusion hi⟩
    intro i hi
    rcases List.mem_map.mp hi with ⟨s, hs, hid⟩
    exact ⟨s, (List.mem_filter.mp hs).1, hid⟩
  | toggleFoc id =>
    obtain ⟨sW, hsW, hidW⟩ := hok
    refine ⟨hsel, ?_⟩
    intro i hi
    have hi' : (if st.focusedId = some id then none else some id) = some i := hi
    by_cases hfe : st.focusedId = some id
    · rw [if_pos hfe] at hi'
      exact Option.noConfusion hi'
    · rw [if_neg hfe] at hi'
      have hii : id = i := Option.some.inj hi'
      subst hii
      exact ⟨sW, hsW, hidW⟩
  | loadOp ns =>
    exact ⟨fun i hi => absurd hi (List.not_mem_nil i),
      fun i hi => Option.noConfusion hi⟩
  | setTool t => exact ⟨hsel, hfoc⟩
  | setColor c => exact ⟨hsel, hfoc⟩
  | setWidth w => exact ⟨hsel, hfoc⟩

/-- Claim C5, corrected: every state reachable through the public
operations — with toggle-selection and toggle-focus invoked (as the UI
does) with the id of a stroke present in the document — satisfies the
reference invariant: every id in `selection` and the value of `focusedId`
(when set) reference a stroke present in `strokes`.  As literally stated
the claim fails, because the raw hook operations accept arbitrary ids
(see the counterexample). -/
theorem C5_selection_focus_valid (st : SketchpadState) (h : Reachable st) :
    ValidRefs st := by
  induction h with
  | init =>
    exact ⟨fun i hi => absurd hi (List.not_mem_nil i),
      fun i hi => Option.noConfusion hi⟩
  | step op st hr hok ih => exact validRefs_step op st hok ih

/-- Witness for C5: the invariant holds at the concrete reachable state
obtained by loading one stroke and focusing it. -/
theorem C5_selection_focus_valid_witness :
    ValidRefs (applyOp (Op.toggleFoc "c") (applyOp (Op.loadOp [demoStroke]) initialState)) :=
  C5_selection_focus_valid _
    (Reachable.step _ _ (Reachable.step _ _ Reachable.init trivial)
      ⟨demoStroke, List.mem_cons_self demoStroke [], rfl⟩)

/-- Counterexample to C5 as stated: invoking the public operation
`toggleFocused` with an id absent from the document (here, once from the
initial state) leaves `focusedId` referencing no stroke at all. -/
theorem C5_counterexample :
    ¬ ValidRefs (runOps [Op.toggleFoc "ghost"] initialState) := by
  intro h
  obtain ⟨_, hfoc⟩ := h
  obtain ⟨s, hs, _⟩ := hfoc "ghost" rfl
  exact absurd hs (List.not_mem_nil s)

theorem save_hist_bound (cs : List Stroke) (st : SketchpadState) :
    (saveStateToUndo cs st).undoStack.length +
      (saveStateToUndo cs st).redoStack.length ≤ 50 := by
  simp only [saveStateToUndo]
  rw [takeLast_length]
  simp

theorem applyOp_hist_bound (op : Op) (st : SketchpadState)
    (h : st.undoStack.length + st.redoStack.length ≤ 50) :
    (applyOp op st).undoStack.length + (applyOp op st).redoStack.length ≤ 50 := by
  cases op with
  | startDraw id p =>
    by_cases hc : st.currentTool = BrushType.eraser ∨ st.currentTool = BrushType.select
    · simp only [applyOp, startDrawing, if_pos hc]; exact h
    · simp only [applyOp, startDrawing, if_neg hc]; exact h
  | continueDraw p =>
    rcases hcs : st.currentStroke with _ | cs <;>
      simp only [applyOp, continueDrawing, hcs] <;> exact h
  | endDraw =>
    rcases hcs : st.currentStroke with _ | cs
    · simp only [applyOp, endDrawing, hcs]; exact h
    · simp only [applyOp, endDrawing, hcs]
      by_cases hp : cs.points = []
      · simp only [if_pos hp]; exact h
      · simp only [if_neg hp]; exact save_hist_bound st.strokes st
  | undoOp =>
    rcases hu : st.undoStack.getLast? with _ | prevState
    · simp only [applyOp, undo, hu]; exact h
    · have hne : st.undoStack ≠ [] := by
        intro he; rw [he] at hu; exact Option.noConfusion hu
      have hpos : 0 < st.undoStack.length := List.length_pos.mpr hne
      simp only [applyOp, undo, hu, List.length_dropLast, List.length_append,
        List.length_cons, List.length_nil]
      omega
  | redoOp =>
    rcases hu : st.redoStack.getLast? with _ | nextState
    · simp only [applyOp, redo, hu]; exact h
    · have hne : st.redoStack ≠ [] := by
        intro he; rw [he] at hu; exact Option.noConfusion hu
      have hpos : 0 < st.redoStack.length := List.length_pos.mpr hne
      simp only [applyOp, redo, hu, List.length_dropLast, List.length_append,
        List.length_cons, List.length_nil]
      omega
  | clearOp =>
    by_cases hc : st.strokes = []
    · simp only [applyOp, clear, if_pos hc]; exact h
    · simp only [applyOp, clear, if_neg hc]; exact save_hist_bound st.strokes st
  | removeOp id => exact save_hist_bound st.strokes st
  | toggleSel id => exact h
  | clearSel => exact h
  | selectAllOp => exact h
  | deleteSel =>
    by_cases hc : st.selection = []
    · simp only [applyOp, deleteSelected, if_pos hc]; exact h
    · simp only [applyOp, deleteSelected, if_neg hc]; exact save_hist_bound st.strokes st
  | selectRect r => exact h
  | toggleFoc id => exact h
  | loadOp ns => simp [applyOp, loadStrokes]
  | setTool t => exact h
  | setColor c => exact h
  | setWidth w => exact h

theorem runOps_hist_bound (ops : List Op) :
    ∀ st : SketchpadState, st.undoStack.length + st.redoStack.length ≤ 50 →
      (runOps ops st).undoStack.length + (runOps ops st).redoStack.length ≤ 50 := by
  induction ops with
  | nil => intro st h; exact h
  | cons op rest ih => intro st h; exact ih (applyOp op st) (applyOp_hist_bound op st h)

/-- Counterexample to C4's existential: no sequence of public operations
run from the initial state can make `past` hold more than 50 entries —
`record` caps `past` and empties `future`, while `undo`/`redo` preserve
the combined size of the two stacks, so that combined size never exceeds
50. -/
theorem C4_counterexample :
    ¬ ∃ ops : List Op, 50 < (runOps ops initialState).undoStack.length := by
  rintro ⟨ops, hgt⟩
  have h := runOps_hist_bound ops initialState (by decide)
  omega

/-- Claim C4, corrected: the `redo` path indeed pushes the current state
onto `past` without re-checking the 50-entry cap (first conjunct), but —
contrary to the claim — no reachable sequence of record/undo/redo
operations can make `past` exceed 50 entries, even transiently (second
conjunct). -/
theorem C4_redo_uncapped_but_bounded :
    (∀ (st : SketchpadState) (ns : List Stroke), st.redoStack.getLast? = some ns →
      (redo st).undoStack = st.undoStack ++ [st.strokes]) ∧
    (∀ ops : List Op, (runOps ops initialState).undoStack.length ≤ 50) := by
  constructor
  · intro st ns h
    simp only [redo, h]
  · intro ops
    have h := runOps_hist_bound ops initialState (by decide)
    omega

/-- Witness for C4: the uncapped redo push at a concrete state with a
nonempty redo stack, and the 50-bound after the empty operation
sequence. -/
theorem C4_redo_uncapped_but_bounded_witness :
    (redo { initialState with redoStack := [[demoStroke]] }).undoStack =
      ({ initialState with redoStack := [[demoStroke]] } : SketchpadState).undoStack ++
        [({ initialState with redoStack := [[demoStroke]] } : SketchpadState).strokes] ∧
    (runOps [] initialState).undoStack.length ≤ 50 :=
  ⟨C4_redo_uncapped_but_bounded.1 _ [demoStroke] rfl,
    C4_redo_uncapped_but_bounded.2 []⟩

theorem endDrawing_commit (st : SketchpadState) (cs : Stroke) (h : cs.points ≠ []) :
    endDrawing { st with currentStroke := some cs } =
      { st with
        strokes := st.strokes ++ [cs]
        undoStack := takeLast 50 (st.undoStack ++ [st.strokes])
        redoStack := []
        currentStroke := none
        isDirty := true } := by
  simp [endDrawing, saveStateToUndo, h]

theorem snapList_length (css : List Stroke) :
    ∀ base : List Stroke, (snapList css base).length = css.length := by
  induction css with
  | nil => intro base; rfl
  | cons c cs ih => intro base; simp [snapList, ih]

theorem commitSeq_eq (css : List Stroke) :
    ∀ st : SketchpadState, (∀ cs ∈ css, cs.points ≠ []) → css ≠ [] →
      commitSeq css st =
        { st with
          strokes := st.strokes ++ css
          undoStack := takeLast 50 (st.undoStack ++ snapList css st.strokes)
          redoStack := []
          currentStroke := none
          isDirty := true } := by
  induction css with
  | nil => intro st _ hne; exact absurd rfl hne
  | cons c cs ih =>
    intro st hpts _
    have hc : c.points ≠ [] := hpts c (List.mem_cons_self c cs)
    have hstep : commitSeq (c :: cs) st =
        commitSeq cs (endDrawing { st with currentStroke := some c }) := rfl
    rw [hstep, endDrawing_commit st c hc]
    by_cases hcs : cs = []
    · subst hcs
      simp [commitSeq, snapList]
    · rw [ih _ (fun x hx => hpts x (List.mem_cons_of_mem c hx)) hcs]
      simp [snapList, takeLast_append_takeLast, List.append_assoc]

theorem undoN_snaps (snaps : List (List Stroke)) :
    ∀ (st : SketchpadState) (rest : List (List Stroke)),
      st.undoStack = rest ++ snaps →
      (undoN snaps.length st).strokes = snaps.headD st.strokes := by
  induction snaps using List.reverseRecOn with
  | nil => intro st rest h; simp [undoN]
  | append_singleton ss s ih =>
    intro st rest h
    have hlen : (ss ++ [s]).length = ss.length + 1 := by simp
    rw [hlen]
    show (undoN ss.length (undo st)).strokes = (ss ++ [s]).headD st.strokes
    have hg : st.undoStack.getLast? = some s := by
      rw [h, ← List.append_assoc]
      exact List.getLast?_concat _
    have hundo : undo st = { st with
        undoStack := st.undoStack.dropLast
        redoStack := st.redoStack ++ [st.strokes]
        strokes := s
        selection := []
        focusedId := none
        isDirty := true } := by
      simp [undo, hg]
    have hdrop : (undo st).undoStack = rest ++ ss := by
      rw [hundo]
      show st.undoStack.dropLast = rest ++ ss
      rw [h, ← List.append_assoc]
      exact List.dropLast_concat
    have hres := ih (undo st) rest hdrop
    rw [hres, hundo]
    cases ss with
    | nil => simp
    | cons a t => simp

/-- Claim C1, corrected: for every initial document state, committing
`N ≤ 50` strokes (each with at least one point) and then undoing `N`
times restores `strokes` to the pre-sequence value, with no intervening
clear/erase/delete.  For `N > 50` the claim as stated fails, because the
50-entry history cap evicts the oldest snapshots (see the
counterexample). -/
theorem C1_commits_then_undos (st : SketchpadState) (css : List Stroke)
    (hlen : css.length ≤ 50) (hpts : ∀ cs ∈ css, cs.points ≠ []) :
    (undoN css.length (commitSeq css st)).strokes = st.strokes := by
  by_cases hcss : css = []
  · subst hcss
    rfl
  · have hA := commitSeq_eq css st hpts hcss
    have hsl : (snapList css st.strokes).length = css.length :=
      snapList_length css st.strokes
    have hU : (commitSeq css st).undoStack =
        takeLast (50 - css.length) st.undoStack ++ snapList css st.strokes := by
      rw [hA]
      show takeLast 50 (st.undoStack ++ snapList css st.strokes) = _
      rw [takeLast_append_of_le 50 st.undoStack (snapList css st.strokes)
        (by rw [hsl]; exact hlen), hsl]
    have hmain := undoN_snaps (snapList css st.strokes) (commitSeq css st) _ hU
    rw [hsl] at hmain
    rw [hmain]
    cases css with
    | nil => exact absurd rfl hcss
    | cons c cs => simp [snapList]

/-- Witness for C1: two commits followed by two undos from the initial
state restore the empty stroke list. -/
theorem C1_commits_then_undos_witness :
    (undoN 2 (commitSeq [demoStroke, demoStroke] initialState)).strokes =
      initialState.strokes :=
  C1_commits_then_undos initialState [demoStroke, demoStroke] (by decide) (by decide)

set_option maxRecDepth 100000

/-- Counterexample to C1 as stated (for every `N`): from the empty
initial document, 51 commits followed by 51 undos do not restore the
initial `strokes` — the 50-entry cap evicted the oldest snapshot, so the
first committed stroke survives every undo. -/
theorem C1_counterexample :
    (undoN 51 (commitSeq (List.replicate 51 demoStroke) initialState)).strokes ≠
      initialState.strokes := by
  decide

theorem nearestScan_spec (x y : ℚ) (sid : String) (pts : List Point) :
    ∀ (b₀ : Option String) (d₀ : ℚ),
      (nearestScan x y sid pts (b₀, d₀) = (b₀, d₀) ∧
        ∀ p ∈ pts, d₀ ≤ distSq x y p) ∨
      (∃ p ∈ pts,
        nearestScan x y sid pts (b₀, d₀) = (some sid, distSq x y p) ∧
        distSq x y p < d₀ ∧ ∀ q ∈ pts, distSq x y p ≤ distSq x y q) := by
  induction pts with
  | nil => intro b₀ d₀; left; exact ⟨rfl, by simp⟩
  | cons p ps ih =>
    intro b₀ d₀
    by_cases hd : distSq x y p < d₀
    · have hstep : nearestScan x y sid (p :: ps) (b₀, d₀) =
          nearestScan x y sid ps (some sid, distSq x y p) := by
        show nearestScan x y sid ps
            (if distSq x y p < (b₀, d₀).2 then (some sid, distSq x y p) else (b₀, d₀)) = _
        rw [if_pos hd]
      rcases ih (some sid) (distSq x y p) with ⟨heq, hall⟩ | ⟨q0, hq0, heq, hlt, hall⟩
      · right
        refine ⟨p, List.mem_cons_self p ps, by rw [hstep]; exact heq, hd, ?_⟩
        intro q hq
        rcases List.mem_cons.mp hq with rfl | hq'
        · exact le_refl _
        · exact hall q hq'
      · right
        refine ⟨q0, List.mem_cons_of_mem p hq0, by rw [hstep]; exact heq,
          lt_trans hlt hd, ?_⟩
        intro q hq
        rcases List.mem_cons.mp hq with rfl | hq'
        · exact le_of_lt hlt
        · exact hall q hq'
    · have hstep : nearestScan x y sid (p :: ps) (b₀, d₀) =
          nearestScan x y sid ps (b₀, d₀) := by
        show nearestScan x y sid ps
            (if distSq x y p < (b₀, d₀).2 then (some sid, distSq x y p) else (b₀, d₀)) = _
        rw [if_neg hd]
      rcases ih b₀ d₀ with ⟨heq, hall⟩ | ⟨q0, hq0, heq, hlt, hall⟩
      · left
        refine ⟨by rw [hstep]; exact heq, ?_⟩
        intro q hq
        rcases List.mem_cons.mp hq with rfl | hq'
        · exact not_lt.mp hd
        · exact hall q hq'
      · right
        refine ⟨q0, List.mem_cons_of_mem p hq0, by rw [hstep]; exact heq, hlt, ?_⟩
        intro q hq
        rcases List.mem_cons.mp hq with rfl | hq'
        · exact le_trans (le_of_lt hlt) (not_lt.mp hd)
        · exact hall q hq'

theorem nearestFold_spec (x y : ℚ) (strokes : List Stroke) :
    ∀ (b₀ : Option String) (d₀ : ℚ),
      (nearestFold x y strokes (b₀, d₀) = (b₀, d₀) ∧
        ∀ s ∈ strokes, ∀ p ∈ s.points, d₀ ≤ distSq x y p) ∨
      (∃ pre s suf, strokes = pre ++ s :: suf ∧ ∃ p ∈ s.points,
        nearestFold x y strokes (b₀, d₀) = (some s.id, distSq x y p) ∧
        distSq x y p < d₀ ∧
        (∀ s2 ∈ strokes, ∀ q ∈ s2.points, distSq x y p ≤ distSq x y q) ∧
        (∀ s2 ∈ pre, ∀ q ∈ s2.points, distSq x y p < distSq x y q)) := by
  induction strokes with
  | nil => intro b₀ d₀; left; exact ⟨rfl, by simp⟩
  | cons s ss ih =>
    intro b₀ d₀
    have hstep : nearestFold x y (s :: ss) (b₀, d₀) =
        nearestFold x y ss (nearestScan x y s.id s.points (b₀, d₀)) := rfl
    rcases nearestScan_spec x y s.id s.points b₀ d₀ with
      ⟨heq, hall⟩ | ⟨p, hp, heq, hlt, hall⟩
    · rcases ih b₀ d₀ with ⟨heq2, hall2⟩ |
        ⟨pre, sw, suf, hdec, p', hp', heq2, hlt2, hall2, hpre2⟩
      · left
        refine ⟨by rw [hstep, heq]; exact heq2, ?_⟩
        intro s2 hs2 q hq
        rcases List.mem_cons.mp hs2 with rfl | hs2'
        · exact hall q hq
        · exact hall2 s2 hs2' q hq
      · right
        refine ⟨s :: pre, sw, suf, by rw [hdec]; rfl, p', hp',
          by rw [hstep, heq]; exact heq2, hlt2, ?_, ?_⟩
        · intro s2 hs2 q hq
          rcases List.mem_cons.mp hs2 with rfl | hs2'
          · exact le_trans (le_of_lt hlt2) (hall q hq)
          · exact hall2 s2 hs2' q hq
        · intro s2 hs2 q hq
          rcases List.mem_cons.mp hs2 with rfl | hs2'
          · exact lt_of_lt_of_le hlt2 (hall q hq)
          · exact hpre2 s2 hs2' q hq
    · rcases ih (some s.id) (distSq x y p) with ⟨heq2, hall2⟩ |
        ⟨pre, sw, suf, hdec, p', hp', heq2, hlt2, hall2, hpre2⟩
      · right
        refine ⟨[], s, ss, rfl, p, hp, by rw [hstep, heq]; exact heq2, hlt, ?_, ?_⟩
        · intro s2 hs2 q hq
          rcases List.mem_cons.mp hs2 with rfl | hs2'
          · exact hall q hq
          · exact hall2 s2 hs2' q hq
        · intro s2 hs2 q hq
          exact absurd hs2 (List.not_mem_nil s2)
      · right
        refine ⟨s :: pre, sw, suf, by rw [hdec]; rfl, p', hp',
          by rw [hstep, heq]; exact heq2, lt_trans hlt2 hlt, ?_, ?_⟩
        · intro s2 hs2 q hq
          rcases List.mem_cons.mp hs2 with rfl | hs2'
          · exact le_trans (le_of_lt hlt2) (hall q hq)
          · exact hall2 s2 hs2' q hq
        · intro s2 hs2 q hq
          rcases List.mem_cons.mp hs2 with rfl | hs2'
          · exact lt_of_lt_of_le hlt2 (hall q hq)
          · exact hpre2 s2 hs2' q hq

/-- Claim C7: `findNearestStrokeId` scans every point of every stroke; it
returns `none` exactly when no point lies strictly within the radius;
when it returns an id, that id belongs to a stroke owning a point that is
within the radius and globally closest, and every stroke strictly earlier
in document order is strictly farther — the first stroke encountered wins
ties.  Distances are compared as squares, which is equivalent to the
source's `Math.sqrt` comparisons by monotonicity. -/
theorem C7_findNearestStrokeId_correct (x y radius : ℚ) (strokes : List Stroke) :
    (findNearestStrokeId x y strokes radius = none ↔
      ∀ s ∈ strokes, ∀ p ∈ s.points, radius * radius ≤ distSq x y p) ∧
    (∀ i, findNearestStrokeId x y strokes radius = some i →
      ∃ pre s suf, strokes = pre ++ s :: suf ∧ s.id = i ∧
        ∃ p ∈ s.points, distSq x y p < radius * radius ∧
          (∀ s2 ∈ strokes, ∀ q ∈ s2.points, distSq x y p ≤ distSq x y q) ∧
          (∀ s2 ∈ pre, ∀ q ∈ s2.points, distSq x y p < distSq x y q)) := by
  have hrepr : findNearestStrokeId x y strokes radius =
      (nearestFold x y strokes (none, radius * radius)).1 := rfl
  rcases nearestFold_spec x y strokes none (radius * radius) with
    ⟨heq, hall⟩ | ⟨pre, s, suf, hdec, p, hp, heq, hlt, hall, hpre⟩
  · refine ⟨⟨fun _ => hall, fun _ => by rw [hrepr, heq]⟩, ?_⟩
    intro i hi
    rw [hrepr, heq] at hi
    exact Option.noConfusion hi
  · have hsmem : s ∈ strokes := by
      rw [hdec]
      exact List.mem_append_right _ (List.mem_cons_self s suf)
    refine ⟨⟨?_, ?_⟩, ?_⟩
    · intro hnone
      rw [hrepr, heq] at hnone
      exact Option.noConfusion hnone
    · intro hge
      exact absurd hlt (not_lt.mpr (hge s hsmem p hp))
    · intro i hi
      rw [hrepr, heq] at hi
      have hid : s.id = i := Option.some.inj hi
      exact ⟨pre, s, suf, hdec, hid, p, hp, hlt, hall, hpre⟩

/-- Witness for C7: at query point (1,0) with radius 30 over two
one-point strokes, the theorem's positive branch names stroke `a` as the
owner of the globally closest point. -/
theorem C7_findNearestStrokeId_correct_witness :
    ∃ pre s suf, [c7A, c7B] = pre ++ s :: suf ∧ s.id = "a" ∧
      ∃ p ∈ s.points, distSq 1 0 p < 30 * 30 ∧
        (∀ s2 ∈ [c7A, c7B], ∀ q ∈ s2.points, distSq 1 0 p ≤ distSq 1 0 q) ∧
        (∀ s2 ∈ pre, ∀ q ∈ s2.points, distSq 1 0 p < distSq 1 0 q) :=
  (C7_findNearestStrokeId_correct 1 0 30 [c7A, c7B]).2 "a" (by decide)

theorem digitChar_ne_dot (m : ℕ) (h : m < 10) : digitChar m ≠ '.' := by
  interval_cases m <;> decide

theorem natDigitsAux_ne_dot (fuel : ℕ) :
    ∀ n, ∀ c ∈ natDigitsAux fuel n, c ≠ '.' := by
  induction fuel with
  | zero => intro n c hc; exact absurd hc (List.not_mem_nil c)
  | succ fuel ih =>
    intro n c hc
    by_cases h10 : n < 10
    · simp only [natDigitsAux, if_pos h10] at hc
      rw [List.mem_singleton] at hc
      subst hc
      exact digitChar_ne_dot n h10
    · simp only [natDigitsAux, if_neg h10] at hc
      rcases List.mem_append.mp hc with h1 | h1
      · exact ih (n / 10) c h1
      · rw [List.mem_singleton] at h1
        subst h1
        exact digitChar_ne_dot (n % 10) (Nat.mod_lt n (by norm_num))

theorem natDigitsAux_length_le (fuel : ℕ) :
    ∀ n f, n < 10 ^ f → 1 ≤ f → (natDigitsAux fuel n).length ≤ f := by
  induction fuel with
  | zero => intro n f _ _; simp [natDigitsAux]
  | succ fuel ih =>
    intro n f hn hf
    by_cases h10 : n < 10
    · simp only [natDigitsAux, if_pos h10, List.length_singleton]
      exact hf
    · simp only [natDigitsAux, if_neg h10, List.length_append, List.length_singleton]
    -- n ≥ 10, so f ≥ 2
      cases f with
      | zero => omega
      | succ fp =>
        have hfp : 1 ≤ fp := by
          by_contra hcon
          have : fp = 0 := by omega
          subst this
          simp at hn
          omega
        have hdiv : n / 10 < 10 ^ fp := by
          rw [Nat.div_lt_iff_lt_mul (by norm_num)]
          calc n < 10 ^ (fp + 1) := hn
          _ = 10 ^ fp * 10 := by rw [pow_succ]
        have := ih (n / 10) fp hdiv hfp
        omega

theorem natStr_length_le (n f : ℕ) (h1 : n < 10 ^ f) (h2 : 1 ≤ f) :
    (natStr n).data.length ≤ f :=
  natDigitsAux_length_le (n + 1) n f h1 h2

theorem padZeros_length (f : ℕ) (cs : List Char) (h : cs.length ≤ f) :
    (padZeros f cs).length = f := by
  simp [padZeros]
  omega

theorem takeWhile_append_of (p : Char → Bool) (A B : List Char) (x : Char)
    (hA : ∀ c ∈ A, p c = true) (hx : p x = false) :
    (A ++ x :: B).takeWhile p = A := by
  induction A with
  | nil => simp [List.takeWhile_cons, hx]
  | cons a A ih =>
    have ha : p a = true := hA a (List.mem_cons_self a A)
    simp [List.takeWhile_cons, ha,
      ih (fun c hc => hA c (List.mem_cons_of_mem a hc))]

theorem fracDigits_concat (pre : String) (frac : List Char)
    (hfrac : ∀ c ∈ frac, c ≠ '.') :
    fracDigits (pre ++ "." ++ String.mk frac) = frac.length := by
  unfold fracDigits
  have hdata : (pre ++ "." ++ String.mk frac).data = (pre.data ++ ['.']) ++ frac := by
    rw [String.data_append, String.data_append]
  rw [hdata, List.reverse_append, List.reverse_append]
  have hstep : frac.reverse ++ (['.'].reverse ++ pre.data.reverse) =
      frac.reverse ++ '.' :: pre.data.reverse := rfl
  rw [hstep, takeWhile_append_of _ _ _ _ ?_ (by decide), List.length_reverse]
  intro c hc
  rw [decide_eq_true_eq]
  exact hfrac c (List.mem_reverse.mp hc)

theorem jsToFixed_fracDigits (f : ℕ) (hf : 1 ≤ f) (q : ℚ) :
    fracDigits (jsToFixed f q) = f := by
  have hf0 : ¬ f = 0 := by omega
  have hfp : (q.num.natAbs * 10 ^ f * 2 + q.den) / (2 * q.den) % 10 ^ f < 10 ^ f :=
    Nat.mod_lt _ (Nat.pos_pow_of_pos f (by norm_num))
  simp only [jsToFixed, if_neg hf0]
  rw [fracDigits_concat]
  · exact padZeros_length f _ (natStr_length_le _ f hfp hf)
  · intro c hc
    rcases List.mem_append.mp hc with h1 | h1
    · rw [List.eq_of_mem_replicate h1]
      decide
    · exact natDigitsAux_ne_dot _ _ c h1

/-- Claim C6, corrected: every value the codec passes through `toFixed` —
the marker-segment coordinates of the full export (2 decimals) and the
thumbnail coordinates and viewBox (1 decimal) — is printed with exactly
that many fractional digits, and both exports are pure functions of their
input, hence byte-identical across repeated calls on identical input.
As literally stated ("every numeric value") the claim is false: stroke
widths, the cached path data, and the canvas dimensions are interpolated
with default number formatting (see the counterexample). -/
theorem C6_fixed_precision :
    (∀ q : ℚ, fracDigits (jsToFixed 2 q) = 2) ∧
    (∀ q : ℚ, fracDigits (jsToFixed 1 q) = 1) ∧
    (∀ (strokes : List Stroke) (w h : ℚ),
      generateSvgContent strokes w h = generateSvgContent strokes w h ∧
      generateThumbnailSvg strokes w h = generateThumbnailSvg strokes w h) :=
  ⟨fun q => jsToFixed_fracDigits 2 (by norm_num) q,
    fun q => jsToFixed_fracDigits 1 (by norm_num) q,
    fun _ _ _ => ⟨rfl, rfl⟩⟩

/-- Counterexample to C6 as stated: the full export of a single pen
stroke of stored width 2.5 contains the numeric attribute
`stroke-width="2.5"` — one decimal, default formatting of `strokeWidth` —
never the two-decimal form `2.50`, and it contains the cached path data
verbatim with bare integers (`M 0 0 L 0 0.1`). -/
theorem C6_counterexample :
    ("stroke-width=\"2.5\"".data <:+: (generateSvgContent [c6Stroke] 100 80).data) ∧
    ¬ ("2.50".data <:+: (generateSvgContent [c6Stroke] 100 80).data) ∧
    ("d=\"M 0 0 L 0 0.1\"".data <:+: (generateSvgContent [c6Stroke] 100 80).data) := by
  decide
